import Mathlib

/-!
Verification of the MicroRemed chaos-experiment core against its
natural-language specification.

The development shallowly embeds the Python source:

* pure string/number parsing (`chaos/check_status.py`) becomes Lean
  functions over `List Char`, with Python `int(...)`/`float(...)` calls
  modelled by `pyInt?`/`pyFloat?` (a raised `ValueError` becomes `none`);
  float values are modelled exactly as decimal literals `num / 10^shift`
  (`DecLit`), which coincides with binary64 on every arithmetic step the
  source takes at the claim inputs;
* each recovery predicate's sampling loop becomes a pure function over an
  explicit finite list of sampled rounds, with every caught exception and
  transport error represented by an explicit error constructor;
* the remediation coordinator and the orchestrator tail become pure
  functions of the outcomes of their external calls (executor status,
  oracle verdict, model replies), with instrumentation fields recording
  which external calls were issued.
-/

namespace MicroRemed

/-- Characters Python's `str.strip()` removes. -/
def isPyWs (c : Char) : Bool :=
  c = ' ' || c = '\t' || c = '\n' || c = '\r' || c = '\x0b' || c = '\x0c'

/-- Python `str.strip()` on a character list. -/
def pyStrip (s : List Char) : List Char :=
  ((s.dropWhile isPyWs).reverse.dropWhile isPyWs).reverse

/-- Numeric value of a digit string (most significant first). -/
def digitsVal (l : List Char) : ℕ :=
  l.foldl (fun a c => a * 10 + (c.toNat - 48)) 0

/-- All characters are ASCII digits. -/
def allDigits (l : List Char) : Bool :=
  l.all Char.isDigit

/-- Python `int(s)` on a string: optional sign, then a nonempty run of
digits (surrounding whitespace stripped); anything else raises
`ValueError`, modelled as `none`.  Fractional strings such as `"0.5"`
are rejected, exactly as in Python. -/
def pyInt? (s : List Char) : Option Int :=
  match pyStrip s with
  | '-' :: rest =>
    if rest ≠ [] ∧ allDigits rest then some (-(digitsVal rest : Int)) else none
  | '+' :: rest =>
    if rest ≠ [] ∧ allDigits rest then some (digitsVal rest : Int) else none
  | t =>
    if t ≠ [] ∧ allDigits t then some (digitsVal t : Int) else none

/-- An exact decimal literal: the value `num / 10 ^ shift`.  Stands in
for the Python float produced by `float(s)`; every multiplication and
truncation the source performs on such a float is computed exactly
here, which agrees with binary64 on all claim inputs. -/
structure DecLit where
  num : Int
  shift : ℕ
  deriving Repr, DecidableEq

/-- The rational value of a decimal literal (for specification use). -/
def DecLit.toRat (d : DecLit) : ℚ :=
  (d.num : ℚ) / (10 : ℚ) ^ d.shift

/-- Unsigned decimal literal body for `pyFloat?`: `digits`, `digits.`,
`digits.digits` or `.digits`. -/
def pyFloatBody? (l : List Char) : Option DecLit :=
  let intPart := l.takeWhile Char.isDigit
  match l.dropWhile Char.isDigit with
  | [] => if intPart = [] then none else some ⟨(digitsVal intPart : Int), 0⟩
  | '.' :: frac =>
    if allDigits frac ∧ (intPart ≠ [] ∨ frac ≠ []) then
      some ⟨((digitsVal intPart * 10 ^ frac.length + digitsVal frac : ℕ) : Int),
            frac.length⟩
    else none
  | _ => none

/-- Python `float(s)` restricted to plain decimal literals (optional
sign, digits, optional fractional point) — the only float syntax the
telemetry strings at issue use; a failed parse (`ValueError`) is
`none`. -/
def pyFloat? (s : List Char) : Option DecLit :=
  match pyStrip s with
  | '-' :: rest => (pyFloatBody? rest).map (fun d => ⟨-d.num, d.shift⟩)
  | '+' :: rest => pyFloatBody? rest
  | t => pyFloatBody? t

/-- Python `int(f * c)` for a float `f` (a decimal literal) and a
positive integer constant `c`: exact multiplication followed by
truncation toward zero. -/
def decTruncMul (d : DecLit) (c : ℕ) : Int :=
  if d.num < 0 then -((((-d.num).toNat * c) / 10 ^ d.shift : ℕ) : Int)
  else (((d.num.toNat * c) / 10 ^ d.shift : ℕ) : Int)

/-- `parse_cpu_to_millicores` (chaos/check_status.py:50-55):
`'50m'`-style strings drop the suffix and go through `int`, anything
else through `int(float(s) * 1000)`. `none` models a raised
`ValueError`. -/
def parse_cpu_to_millicores (cpu_str : List Char) : Option Int :=
  if List.isSuffixOf ['m'] cpu_str then
    pyInt? cpu_str.dropLast
  else
    (pyFloat? cpu_str).map (fun d => decTruncMul d 1000)

/-- Drop the last two characters (Python `s[:-2]`). -/
def dropLast2 (l : List Char) : List Char :=
  l.dropLast.dropLast

/-- `parse_memory_to_bytes` (chaos/check_status.py:164-188): the exact
source chain of `endswith` tests — binary suffixes Ki/Mi/Gi/Ti/Pi/Ei at
base 1024, decimal suffixes K/M/G/T at base 1000, otherwise `int(s)`.
`none` models a raised `ValueError`. -/
def parse_memory_to_bytes (mem_str0 : List Char) : Option Int :=
  let mem_str := pyStrip mem_str0
  if List.isSuffixOf ['K', 'i'] mem_str then
    (pyFloat? (dropLast2 mem_str)).map (fun d => decTruncMul d 1024)
  else if List.isSuffixOf ['M', 'i'] mem_str then
    (pyFloat? (dropLast2 mem_str)).map (fun d => decTruncMul d (1024 ^ 2))
  else if List.isSuffixOf ['G', 'i'] mem_str then
    (pyFloat? (dropLast2 mem_str)).map (fun d => decTruncMul d (1024 ^ 3))
  else if List.isSuffixOf ['T', 'i'] mem_str then
    (pyFloat? (dropLast2 mem_str)).map (fun d => decTruncMul d (1024 ^ 4))
  else if List.isSuffixOf ['P', 'i'] mem_str then
    (pyFloat? (dropLast2 mem_str)).map (fun d => decTruncMul d (1024 ^ 5))
  else if List.isSuffixOf ['E', 'i'] mem_str then
    (pyFloat? (dropLast2 mem_str)).map (fun d => decTruncMul d (1024 ^ 6))
  else if List.isSuffixOf ['K'] mem_str then
    (pyFloat? mem_str.dropLast).map (fun d => decTruncMul d 1000)
  else if List.isSuffixOf ['M'] mem_str then
    (pyFloat? mem_str.dropLast).map (fun d => decTruncMul d (1000 ^ 2))
  else if List.isSuffixOf ['G'] mem_str then
    (pyFloat? mem_str.dropLast).map (fun d => decTruncMul d (1000 ^ 3))
  else if List.isSuffixOf ['T'] mem_str then
    (pyFloat? mem_str.dropLast).map (fun d => decTruncMul d (1000 ^ 4))
  else
    pyInt? mem_str

/-- Substring test (Python `needle in haystack`). -/
def containsSub (needle : List Char) : List Char → Bool
  | [] => needle.isEmpty
  | c :: rest => List.isPrefixOf needle (c :: rest) || containsSub needle rest

/-- Python `s.split(sep)` for a one-character separator: always returns
at least one (possibly empty) piece. -/
def splitOnChar (sep : Char) : List Char → List (List Char)
  | [] => [[]]
  | c :: rest =>
    match splitOnChar sep rest with
    | [] => [[]]
    | l :: ls => if c = sep then [] :: l :: ls else (c :: l) :: ls

/-- Helper for `pySplitWs`: accumulates the current token reversed. -/
def pySplitWsAux : List Char → List Char → List (List Char)
  | [], acc => if acc = [] then [] else [acc.reverse]
  | c :: rest, acc =>
    if isPyWs c then
      if acc = [] then pySplitWsAux rest []
      else acc.reverse :: pySplitWsAux rest []
    else pySplitWsAux rest (c :: acc)

/-- Python `s.split()` (no argument): split on whitespace runs, empty
pieces dropped, `[]` for an all-whitespace string. -/
def pySplitWs (l : List Char) : List (List Char) :=
  pySplitWsAux l []

/-- Exact comparison `usage / limit ≥ thr` of the float division the
source performs against a float threshold, by cross-multiplication
(the `limit = 0` case is filtered out before every use). -/
def ratioGe (usage limit : Int) (thr : DecLit) : Bool :=
  if 0 < limit then decide (thr.num * limit ≤ usage * 10 ^ thr.shift)
  else if limit < 0 then decide (usage * 10 ^ thr.shift ≤ thr.num * limit)
  else true

/-- Exact float comparison `a > b` on decimal literals. -/
def decGt (a b : DecLit) : Bool :=
  decide (b.num * 10 ^ a.shift < a.num * 10 ^ b.shift)

/-- Result of a Python expression that may raise an exception caught by
an enclosing `except` block. -/
inductive PyResult (α : Type) where
  | ok (a : α)
  | exn
  deriving Repr, DecidableEq


/-! ## CPU stress recovery (chaos/check_status.py:71-161) -/

/-- One data row of `kubectl top pod --containers` (columns already
split; rows with fewer than three columns are dropped by the transport
layer, mirroring the `len(parts) < 3` skip), together with the pod-spec
facts the loop body looks up for it. -/
structure CpuSample where
  pod_name : List Char
  container_name : List Char
  cpu_str : List Char
  /-- whether `next((p for p in pods ...), None)` finds the pod object -/
  podFound : Bool
  /-- `resources.limits['cpu']` of the matching container in the pod
  spec, `none` when the container or its limits are absent -/
  limit_str : Option (List Char)
  deriving Repr, DecidableEq

/-- `"sidecar" in container_name or "busybox" in container_name`
(case-sensitive, chaos/check_status.py:127). -/
def isSidecarContainer (name : List Char) : Bool :=
  containsSub "sidecar".data name || containsSub "busybox".data name

/-- `get_container_cpu_limit_millicores` (chaos/check_status.py:58-68)
applied to the limit string: `none` limit and falsy (empty) limit give
`ok none`; an unparsable limit raises (`exn`), which the caller's
`except` turns into a failed round. -/
def cpuLimit? : Option (List Char) → PyResult (Option Int)
  | none => .ok none
  | some s =>
    if s = [] then .ok none
    else if List.isSuffixOf ['m'] s then
      match pyInt? s.dropLast with
      | some n => .ok (some n)
      | none => .exn
    else
      match pyFloat? s with
      | some d => .ok (some (decTruncMul d 1000))
      | none => .exn

/-- Loop body for one top row (chaos/check_status.py:121-148): sidecars,
missing pods and limit-less (or zero-limit) containers are skipped;
a judged container is normal iff its usage/limit ratio is below the
threshold; a parse failure raises. -/
def cpuSampleNormal (thr : DecLit) (s : CpuSample) : PyResult Bool :=
  if isSidecarContainer s.container_name then .ok true
  else if !s.podFound then .ok true
  else
    match parse_cpu_to_millicores s.cpu_str with
    | none => .exn
    | some usage =>
      match cpuLimit? s.limit_str with
      | .exn => .exn
      | .ok none => .ok true
      | .ok (some limit) =>
        if limit = 0 then .ok true
        else .ok (!(ratioGe usage limit thr))

/-- `all_cpu_normal` over the data rows of one sample; an exception in
any row aborts the round. -/
def cpuRoundNormal (thr : DecLit) : List CpuSample → PyResult Bool
  | [] => .ok true
  | s :: rest =>
    match cpuSampleNormal thr s with
    | .exn => .exn
    | .ok b =>
      match cpuRoundNormal thr rest with
      | .exn => .exn
      | .ok b2 => .ok (b && b2)

/-- One iteration of the metric loop: `kubectl top` may fail or return
no data rows (both retried), otherwise the rows are judged. -/
inductive CpuRound where
  | topFailed
  | noData
  | samples (rows : List CpuSample)
  deriving Repr, DecidableEq

/-- Whether one sampled round returns `True` from the loop
(chaos/check_status.py:102-158). -/
def cpuRoundPasses (thr : DecLit) : CpuRound → Bool
  | .topFailed => false
  | .noData => false
  | .samples rows =>
    match cpuRoundNormal thr rows with
    | .exn => false
    | .ok b => b

/-- `check_cpu_stress_recovered` as a function of the finite list of
rounds sampled before its timeout: it returns `True` exactly when some
round fully passes, `False` when the rounds are exhausted. -/
def check_cpu_stress_recovered (thr : DecLit) (rounds : List CpuRound) : Bool :=
  rounds.any (cpuRoundPasses thr)

/-- A judged CPU row failing its threshold: non-sidecar, pod found,
usage parsed, a nonzero declared limit, and usage/limit at or above the
threshold. -/
def cpuSampleJudgedFails (thr : DecLit) (s : CpuSample) : Bool :=
  !isSidecarContainer s.container_name && s.podFound &&
    (match parse_cpu_to_millicores s.cpu_str, cpuLimit? s.limit_str with
     | some usage, .ok (some limit) =>
       if limit = 0 then false else ratioGe usage limit thr
     | _, _ => false)

/-! ## Memory stress recovery (chaos/check_status.py:224-308) -/

/-- A container of a pod read back by `read_namespaced_pod`, with the
usage sample `get_container_memory_usage_bytes` would return for it
(`none` for any failure there — that helper catches its own
exceptions). -/
structure MemContainer where
  name : List Char
  /-- `resources.limits['memory']`, `none` when absent -/
  limit_str : Option (List Char)
  usage : Option Int
  deriving Repr, DecidableEq

/-- Sidecar filter of check_memory_stress_recovered (lines 265-268):
case-insensitive substring test on the container name. -/
def isSidecarMemContainer (name : List Char) : Bool :=
  containsSub "busybox".data (name.map Char.toLower) ||
    containsSub "sidecar".data (name.map Char.toLower)

/-- `get_container_memory_limit_bytes` (chaos/check_status.py:191-198):
absent or falsy limit gives `ok none`; an unparsable limit string
raises, which the per-pod `except` turns into a failed pod. -/
def memLimit? (c : MemContainer) : PyResult (Option Int) :=
  match c.limit_str with
  | none => .ok none
  | some s =>
    if s = [] then .ok none
    else
      match parse_memory_to_bytes s with
      | some n => .ok (some n)
      | none => .exn

/-- `pod_normal` over the judged containers of one pod (lines 274-292):
limit-less (or zero-limit) containers are skipped, a missing usage
sample fails the pod, a ratio at or above the threshold fails the
pod. -/
def memContainersNormal (thr : DecLit) : List MemContainer → PyResult Bool
  | [] => .ok true
  | c :: rest =>
    match memLimit? c with
    | .exn => .exn
    | .ok lim =>
      let this : Bool :=
        match lim with
        | none => true
        | some l =>
          if l = 0 then true
          else
            match c.usage with
            | none => false
            | some u => !(ratioGe u l thr)
      match memContainersNormal thr rest with
      | .exn => .exn
      | .ok b => .ok (this && b)

/-- One pod examined in a memory round: reading the pod object may
raise (caught per pod, failing the round), otherwise its containers
are judged. -/
inductive MemPod where
  | readError
  | pod (containers : List MemContainer)
  deriving Repr, DecidableEq

/-- Whether one pod is normal in a round (lines 261-299): a read error
or an in-pod exception fails the pod; a pod whose containers are all
sidecars is skipped (counts as normal). -/
def memPodNormal (thr : DecLit) : MemPod → Bool
  | .readError => false
  | .pod cs =>
    let judged := cs.filter (fun c => !isSidecarMemContainer c.name)
    if judged.isEmpty then true
    else
      match memContainersNormal thr judged with
      | .exn => false
      | .ok b => b

/-- One iteration of the memory metric loop: an empty pod list is
retried, otherwise every pod is judged. -/
inductive MemRound where
  | noPods
  | pods (ps : List MemPod)
  deriving Repr, DecidableEq

/-- Whether one sampled round returns `True`
(chaos/check_status.py:251-305). -/
def memRoundPasses (thr : DecLit) : MemRound → Bool
  | .noPods => false
  | .pods ps => ps.all (memPodNormal thr)

/-- `check_memory_stress_recovered` over the finite list of sampled
rounds. -/
def check_memory_stress_recovered (thr : DecLit) (rounds : List MemRound) : Bool :=
  rounds.any (memRoundPasses thr)

/-- A judged memory container failing its threshold: non-sidecar, a
nonzero declared limit, and either no observable usage or a ratio at or
above the threshold. -/
def memContainerJudgedFails (thr : DecLit) (c : MemContainer) : Bool :=
  !isSidecarMemContainer c.name &&
    (match memLimit? c with
     | .ok (some l) =>
       if l = 0 then false
       else
         match c.usage with
         | none => true
         | some u => ratioGe u l thr
     | _ => false)

/-! ## Network latency/loss recovery (chaos/check_status.py:363-464) -/

/-- Outcome of one `subprocess.run` of `kubectl exec ... ping`:
raising (timeout etc.) is caught by the per-pod `except`, otherwise the
return code and both captured streams are inspected. -/
inductive PingExec where
  | raised
  | ran (returncode : Int) (stdout stderr : List Char)
  deriving Repr, DecidableEq

/-- A network probe for one pod: the primary exec, plus the fallback
exec that lines 411-417 issue only when the primary output signals a
missing ping binary. -/
structure PingProbe where
  primary : PingExec
  fallback : PingExec
  deriving Repr, DecidableEq

/-- Parse the packet-loss percentage (chaos/check_status.py:424-432):
the first line containing both `"packet loss"` and `"transmitted"`
yields `float(line.split(',')[2].strip().split('%')[0])`; a missing
line, a missing third comma field or an unparsable number all leave the
worst-case default of 100. -/
def parseLossPercent (output : List Char) : DecLit :=
  match (splitOnChar '\n' output).find?
      (fun l => containsSub "packet loss".data l && containsSub "transmitted".data l) with
  | none => ⟨100, 0⟩
  | some line =>
    match (splitOnChar ',' line).get? 2 with
    | none => ⟨100, 0⟩
    | some part =>
      match ((splitOnChar '%' (pyStrip part)).headD []) with
      | piece =>
        match pyFloat? piece with
        | none => ⟨100, 0⟩
        | some d => d

/-- Parse average round-trip latency (chaos/check_status.py:438-447):
the first line containing a min/avg/max summary yields
`float(line.split('=')[1].strip().split()[0].split('/')[1])`; any
index or value error gives `none`. -/
def parseAvgLatency (output : List Char) : Option DecLit :=
  match (splitOnChar '\n' output).find?
      (fun l => containsSub "round-trip min/avg/max".data l ||
                containsSub "rtt min/avg/max".data l) with
  | none => none
  | some line =>
    match (splitOnChar '=' line).get? 1 with
    | none => none
    | some timePart =>
      match pySplitWs (pyStrip timePart) with
      | [] => none
      | first :: _ =>
        match (splitOnChar '/' first).get? 1 with
        | none => none
        | some v => pyFloat? v

/-- Judge one ping output (chaos/check_status.py:419-451): a non-zero
exit without a `"100% packet loss"` marker fails; then parsed loss must
not exceed `max_loss`, and an average latency must parse and not exceed
`max_latency`. -/
def pingEval (max_loss max_latency : DecLit) (rc : Int) (output : List Char) : Bool :=
  if rc ≠ 0 && !containsSub "100% packet loss".data output then false
  else if decGt (parseLossPercent output) max_loss then false
  else
    match parseAvgLatency output with
    | none => false
    | some lat => !decGt lat max_latency

/-- One pod's probe (chaos/check_status.py:401-455): a raised exec
fails the pod; a missing-binary marker in `stdout+stderr` reruns the
probe in the sidecar container (whose stdout alone is then judged). -/
def pingPodOk (max_loss max_latency : DecLit) (p : PingProbe) : Bool :=
  match p.primary with
  | .raised => false
  | .ran rc out err =>
    let output := pyStrip (out ++ err)
    if containsSub "executable file not found".data output ||
        containsSub "OCI runtime exec failed".data output then
      match p.fallback with
      | .raised => false
      | .ran rc2 out2 _ => pingEval max_loss max_latency rc2 (pyStrip out2)
    else pingEval max_loss max_latency rc output

/-- One iteration of the probing loop: an empty pod list is retried,
otherwise every pod is probed. -/
inductive PingRound where
  | noPods
  | pods (ps : List PingProbe)
  deriving Repr, DecidableEq

/-- Whether one sampled round returns `True`
(chaos/check_status.py:393-461). -/
def pingRoundPasses (max_loss max_latency : DecLit) : PingRound → Bool
  | .noPods => false
  | .pods ps => ps.all (pingPodOk max_loss max_latency)

/-- `check_ping_latency_recovered` over the finite list of rounds
sampled before its timeout; exhausting the rounds (the timeout) gives
`False`, and every caught exception is an explicit constructor, so the
function is total — the predicate never raises. -/
def check_ping_latency_recovered (max_loss max_latency : DecLit)
    (rounds : List PingRound) : Bool :=
  rounds.any (pingRoundPasses max_loss max_latency)

/-! ## Disk write performance recovery (chaos/check_status.py:467-548) -/

/-- Outcome of the timed `dd` exec in one pod: the subprocess may raise
(timeout — caught per pod) or return captured stdout. -/
inductive DiskExec where
  | raised
  | output (stdout : List Char)
  deriving Repr, DecidableEq

/-- One pod's disk test: the `dd` exec outcome, and whether the
clean-up `rm` subprocess would raise if issued (its `TimeoutExpired`
is caught by the same per-pod `except`). -/
structure DiskProbe where
  exec : DiskExec
  cleanupRaises : Bool
  deriving Repr, DecidableEq

/-- Exact comparison `speed < min` for `speed = 10 / (ms / 1000)` MB/s
(chaos/check_status.py:524-526), by cross-multiplication.  `ms = 0` is
clamped to 1 before this is reached. -/
def speedBelowMin (ms min_speed : Int) : Bool :=
  if 0 < ms then decide (10000 < min_speed * ms)
  else if ms < 0 then decide (min_speed * ms < 10000)
  else true

/-- Whether the parsed `dd` output passes the throughput threshold:
non-empty stripped output whose last line is an integer duration, with
the derived speed at or above `min_speed`. -/
def diskCheckPassed (min_speed : Int) (e : DiskExec) : Bool :=
  match e with
  | .raised => false
  | .output out0 =>
    let output := pyStrip out0
    if output = [] then false
    else
      match pyInt? ((splitOnChar '\n' output).getLastD []) with
      | none => false
      | some ms0 =>
        let ms := if ms0 = 0 then 1 else ms0
        !speedBelowMin ms min_speed

/-- One pod's body of the disk loop (chaos/check_status.py:503-539),
returning `(pod ok, clean-up command issued)`.  The `rm -f` clean-up at
lines 531-536 sits after the `continue` of the failing branch and after
every raising expression, so it runs only on the passing path; a
clean-up timeout then fails the pod via the shared `except`. -/
def diskPodStep (min_speed : Int) (p : DiskProbe) : Bool × Bool :=
  match p.exec with
  | .raised => (false, false)
  | .output out0 =>
    let output := pyStrip out0
    if output = [] then (false, false)
    else
      match pyInt? ((splitOnChar '\n' output).getLastD []) with
      | none => (false, false)
      | some ms0 =>
        let ms := if ms0 = 0 then 1 else ms0
        if speedBelowMin ms min_speed then (false, false)
        else (!p.cleanupRaises, true)

/-- One iteration of the disk loop: an empty pod list is retried,
otherwise every pod is tested. -/
inductive DiskRound where
  | noPods
  | pods (ps : List DiskProbe)
  deriving Repr, DecidableEq

/-- Whether one sampled round returns `True`
(chaos/check_status.py:495-545). -/
def diskRoundPasses (min_speed : Int) : DiskRound → Bool
  | .noPods => false
  | .pods ps => ps.all (fun p => (diskPodStep min_speed p).1)

/-- `check_disk_io_performance` over the finite list of sampled
rounds. -/
def check_disk_io_performance (min_speed : Int) (rounds : List DiskRound) : Bool :=
  rounds.any (diskRoundPasses min_speed)

/-! ## Remediation coordinator (methods/ThinkRemed/coordinator.py) -/

/-- `MAX_RETRY_TIME` (coordinator.py:14): maximum number of
remediation retries after the initial attempt. -/
def MAX_RETRY_TIME : ℕ := 1

/-- Result of `execute_playbook_and_get_response`
(methods/execution_agent.py:39-85): a success flag and the captured
output.  Non-zero exit, timeout and missing executable all surface as
`status = false` — that function never lets the fault propagate. -/
structure ExecOutcome where
  status : Bool
  output : List Char
  deriving Repr, DecidableEq

/-- What one `execute_and_verify` call produces, with an
instrumentation flag recording whether `verify_status` (the Recovery
Oracle) was invoked. -/
structure AttemptResult where
  playbook_exec_status : Bool
  verified : Bool
  output : List Char
  verifyInvoked : Bool
  deriving Repr, DecidableEq

/-- `execute_and_verify` (coordinator.py:107-122) as a function of the
executor outcome and of the verdict the oracle would return if asked:
on `status = True` the coordinator sleeps and verifies; on
`status = False` it returns `(status, False, output)` at line 122
without calling `verify_status`. -/
def execute_and_verify (ex : ExecOutcome) (oracleVerdict : Bool) : AttemptResult :=
  if ex.status then ⟨true, oracleVerdict, ex.output, true⟩
  else ⟨false, false, ex.output, false⟩

/-- Returned shape of `remediate_failure`, instrumented with the
number of action-executor invocations. -/
structure RemedTrace where
  tryTime : ℕ
  execCount : ℕ
  finalStatus : Bool
  deriving Repr, DecidableEq

/-- The retry loop of `remediate_failure` (coordinator.py:131-151):
`while not status and try_time <= MAX_RETRY_TIME`, each iteration
regenerating a playbook (a raised generation breaks out of the loop)
and running one more `execute_and_verify` cycle.  `fuel` is
`maxRetry - tryTime + 1`, the number of iterations the guard still
allows. -/
def remedRetryLoop (attempts : ℕ → ExecOutcome × Bool) (retryGenOk : ℕ → Bool) :
    ℕ → ℕ → ℕ → Bool → RemedTrace
  | 0, tryTime, execCount, status => ⟨tryTime, execCount, status⟩
  | fuel + 1, tryTime, execCount, status =>
    if status then ⟨tryTime, execCount, status⟩
    else if retryGenOk tryTime then
      remedRetryLoop attempts retryGenOk fuel (tryTime + 1) (execCount + 1)
        (execute_and_verify (attempts execCount).1 (attempts execCount).2).verified
    else ⟨tryTime, execCount, status⟩

/-- `remediate_failure` (coordinator.py:17-153) as a function of its
external interactions: `genInitOk` is whether the initial
`get_playbook_with_probing` call returns (rather than raises — the
raising path returns the error value `(False, -1)` at line 104 and
executes nothing, modelled as `none`); `attempts k` gives the executor
outcome and the oracle verdict of the `k`-th execute/verify cycle;
`retryGenOk t` is whether the regeneration before retry `t` returns. -/
def remediate_failure (maxRetry : ℕ) (genInitOk : Bool)
    (attempts : ℕ → ExecOutcome × Bool) (retryGenOk : ℕ → Bool) :
    Option RemedTrace :=
  if !genInitOk then none
  else
    some (remedRetryLoop attempts retryGenOk maxRetry 1 1
      (execute_and_verify (attempts 0).1 (attempts 0).2).verified)

/-! ## Experiment orchestrator (inject_and_remediate.py) -/

/-- What the `remediate` dispatcher hands back to `run_experiments`:
a conversation transcript with an attempt count, the ThinkRemed error
value `(False, -1)` (coordinator.py:104), or an exception that
propagates out of `remediate`. -/
inductive RemediateResult where
  | transcript (conversations : List (List Char)) (tries : Int)
  | errorValue
  | raised
  deriving Repr, DecidableEq

/-- Fate of one experiment iteration after the remediation call,
instrumented with how often `stop_injection` and
`restore_by_original_manifest` run for the slot. -/
structure IterTail where
  crashed : Bool
  stopInjectionCalls : ℕ
  restoreCalls : ℕ
  deriving Repr, DecidableEq

/-- The tail of one `run_experiments` iteration after `remediate`
returns (inject_and_remediate.py:131-183).  On a transcript, the
orchestrator estimates tokens, checks status, saves the log, then calls
`stop_injection` and `restore_by_original_manifest` once each.  There
is no `try` around this code: a raised `remediate` propagates, and the
error value `(False, -1)` makes `estimate_token_count` iterate over the
boolean `False` (inject_and_remediate.py:36), raising `TypeError` —
either way the campaign process dies before stop/restore. -/
def experiment_tail (r : RemediateResult) : IterTail :=
  match r with
  | .transcript _ _ => ⟨false, 1, 1⟩
  | .errorValue => ⟨true, 0, 0⟩
  | .raised => ⟨true, 0, 0⟩

/-- Error events arising inside the campaign loop
(inject_and_remediate.py:77-183), each annotated with where its
handling is decided. -/
inductive LoopEvent where
  /-- target unhealthy, `deploy_env` redeploys successfully (line 90) -/
  | healthRedeployOk
  /-- target unhealthy and the redeploy's `deploy.sh` exits non-zero:
  `deploy_env` calls `sys.exit(1)` (envs/env.py:30) -/
  | healthRedeployFail
  /-- `inject_failure` returns `False` (apply failed or timed out) —
  slot counted and abandoned (lines 93-97) -/
  | injectionApplyFail
  /-- the chaos template file is missing: `inject_failure` raises
  `FileNotFoundError` (chaos/injection.py:93), uncaught in the loop -/
  | injectionTemplateMissing
  /-- injection never manifests before the timeout (non-strict mode):
  `stop_injection`, slot counted and abandoned (lines 104-123) -/
  | injectionTimeout
  /-- remediation returns a transcript; the slot is recorded, stopped
  and restored (lines 131-183) -/
  | remediationTranscript
  /-- remediation returns the ThinkRemed error value `(False, -1)`:
  `estimate_token_count` raises `TypeError` (line 141 via line 36) -/
  | remediationErrorValue
  /-- `remediate` raises; no enclosing `try` in `run_experiments` -/
  | remediationRaised
  /-- `restore_by_original_manifest` returns `False`; the loop sleeps
  and moves on (lines 180-183) -/
  | restorationFail
  deriving Repr, DecidableEq

/-- How the campaign loop leaves the slot after the event: proceed to
the next experiment, or terminate the whole campaign process. -/
inductive StepOutcome where
  | nextSlot
  | processExit
  deriving Repr, DecidableEq

/-- The loop's handling of each in-loop error event, read off the
control flow of `run_experiments` together with `deploy_env`,
`inject_failure` and `experiment_tail` above. -/
def campaignStep : LoopEvent → StepOutcome
  | .healthRedeployOk => .nextSlot
  | .healthRedeployFail => .processExit
  | .injectionApplyFail => .nextSlot
  | .injectionTemplateMissing => .processExit
  | .injectionTimeout => .nextSlot
  | .remediationTranscript => .nextSlot
  | .remediationErrorValue => .processExit
  | .remediationRaised => .processExit
  | .restorationFail => .nextSlot

/-! ## Streamed model-response reassembly (models/llm.py:57-145)

The SSE/JSON transport layer (line framing, `data: ` prefixes,
`json.loads`, chunks without choices) is modelled by the event
constructors: `skip` covers every line the source ignores, `done` the
`[DONE]` sentinel that stops processing, and `delta` one decoded
`choices[0].delta` object. -/

/-- One element of a delta's `tool_calls` array, flattened: `name` and
`args` are the fields of its `function` sub-object (`none` when the
sub-object or the field is absent or null — both are ignored by the
source in the same way). -/
structure ToolCallChunk where
  index : ℕ
  id : Option (List Char)
  ctype : Option (List Char)
  name : Option (List Char)
  args : Option (List Char)
  deriving Repr, DecidableEq

/-- One parsed stream line. -/
inductive StreamEvent where
  | skip
  | done
  | delta (content : Option (List Char)) (tool_calls : List ToolCallChunk)
  deriving Repr, DecidableEq

/-- An accumulated tool call (`current_tool_calls[index]`). -/
structure ToolEntry where
  id : Option (List Char)
  ctype : List Char
  name : List Char
  args : List Char
  deriving Repr, DecidableEq

/-- Entry initialisation for a first-seen index (llm.py:115-123):
`id` and `type` are taken from this chunk (defaulting the type), name
and arguments start empty. -/
def initEntry (tc : ToolCallChunk) : ToolEntry :=
  ⟨tc.id, tc.ctype.getD "function".data, [], []⟩

/-- Field updates applied for one chunk (llm.py:125-134): a non-empty
name overwrites, a non-empty arguments fragment is appended. -/
def updateEntry (tc : ToolCallChunk) (e : ToolEntry) : ToolEntry :=
  let e1 :=
    match tc.name with
    | some n => if n ≠ [] then { e with name := n } else e
    | none => e
  match tc.args with
  | some a => if a ≠ [] then { e1 with args := e1.args ++ a } else e1
  | none => e1

/-- Apply one chunk to the accumulator dictionary, kept as an
association list in insertion order with unique keys — exactly a
Python dict: a new index is appended, an existing one updated in
place. -/
def applyChunkToList (tc : ToolCallChunk) : List (ℕ × ToolEntry) → List (ℕ × ToolEntry)
  | [] => [(tc.index, updateEntry tc (initEntry tc))]
  | (i, e) :: rest =>
    if i = tc.index then (i, updateEntry tc e) :: rest
    else (i, e) :: applyChunkToList tc rest

/-- Parser state: accumulated content and the tool-call dictionary. -/
structure StreamState where
  content : List Char
  tool_calls : List (ℕ × ToolEntry)
  deriving Repr, DecidableEq

/-- Apply one delta (llm.py:104-134): concatenate a non-null content
fragment, then apply its tool-call chunks in order. -/
def applyDelta (st : StreamState) (content : Option (List Char))
    (tcs : List ToolCallChunk) : StreamState :=
  ⟨st.content ++ content.getD [],
   tcs.foldl (fun acc tc => applyChunkToList tc acc) st.tool_calls⟩

/-- The event loop (llm.py:88-134): `done` stops, `skip` is ignored,
every delta is folded into the state. -/
def processEvents : StreamState → List StreamEvent → StreamState
  | st, [] => st
  | st, .done :: _ => st
  | st, .skip :: rest => processEvents st rest
  | st, .delta c tcs :: rest => processEvents (applyDelta st c tcs) rest

/-- Insert one keyed entry into a key-sorted list. -/
def insertByIdx (p : ℕ × ToolEntry) : List (ℕ × ToolEntry) → List (ℕ × ToolEntry)
  | [] => [p]
  | q :: qs => if p.1 ≤ q.1 then p :: q :: qs else q :: insertByIdx p qs

/-- `[current_tool_calls[i] for i in sorted(current_tool_calls.keys())]`
(llm.py:138-140), as an insertion sort by index. -/
def sortByIdx (l : List (ℕ × ToolEntry)) : List (ℕ × ToolEntry) :=
  l.foldr insertByIdx []

/-- The reassembled assistant message.  The source emits the entries
without their dictionary keys; the key (the tool-call index) is kept
here so the ordering can be specified. -/
structure AssistantMessage where
  content : Option (List Char)
  tool_calls : List (ℕ × ToolEntry)
  deriving Repr, DecidableEq

/-- `parse_streamed_response` (llm.py:57-145) over the decoded event
list: fold the events, order the accumulated tool calls by index, and
null out an empty content exactly when tool calls are present. -/
def parse_streamed_response (events : List StreamEvent) : AssistantMessage :=
  let st := processEvents ⟨[], []⟩ events
  if st.tool_calls ≠ [] then
    ⟨if st.content = [] then none else some st.content, sortByIdx st.tool_calls⟩
  else ⟨some st.content, []⟩

/-- Argument fragment carried by one chunk for index `idx` in the
plain concatenation. -/
def argsChunkPlain (idx : ℕ) (a : List Char) (tc : ToolCallChunk) : List Char :=
  if tc.index = idx then a ++ tc.args.getD [] else a

/-- Specification-side fold: all argument fragments carried for
`idx`, concatenated in stream order (up to the `[DONE]` sentinel);
absent fragments contribute nothing. -/
def argConcat (idx : ℕ) : List StreamEvent → List Char
  | [] => []
  | .done :: _ => []
  | .skip :: rest => argConcat idx rest
  | .delta _ tcs :: rest =>
    tcs.foldl (argsChunkPlain idx) [] ++ argConcat idx rest

/-- The name update one chunk performs on an entry: a non-empty name
fragment overwrites the current value. -/
def nameUpdOf (tc : ToolCallChunk) (cur : List Char) : List Char :=
  match tc.name with
  | some n => if n ≠ [] then n else cur
  | none => cur

/-- Name update contributed by one chunk for index `idx`: a non-empty
name fragment overwrites the current value. -/
def chunkNameStep (idx : ℕ) (cur : List Char) (tc : ToolCallChunk) : List Char :=
  if tc.index = idx then nameUpdOf tc cur else cur

/-- Fold `chunkNameStep` over the events up to the `[DONE]` sentinel. -/
def nameFold (idx : ℕ) (cur : List Char) : List StreamEvent → List Char
  | [] => cur
  | .done :: _ => cur
  | .skip :: rest => nameFold idx cur rest
  | .delta _ tcs :: rest => nameFold idx (tcs.foldl (chunkNameStep idx) cur) rest

/-- Specification-side value: the last non-empty name fragment carried
for `idx` before the `[DONE]` sentinel (empty if there is none). -/
def lastNameFrag (idx : ℕ) (events : List StreamEvent) : List Char :=
  nameFold idx [] events

/-- Keep-first name update: only the first non-empty fragment counts. -/
def chunkFirstNameStep (idx : ℕ) (cur : List Char) (tc : ToolCallChunk) : List Char :=
  if cur ≠ [] then cur
  else if tc.index = idx then
    match tc.name with
    | some n => n
    | none => cur
  else cur

/-- Fold `chunkFirstNameStep` over the events up to `[DONE]`. -/
def firstNameFold (idx : ℕ) (cur : List Char) : List StreamEvent → List Char
  | [] => cur
  | .done :: _ => cur
  | .skip :: rest => firstNameFold idx cur rest
  | .delta _ tcs :: rest => firstNameFold idx (tcs.foldl (chunkFirstNameStep idx) cur) rest

/-- Specification-side value: the first non-empty name fragment carried
for `idx` before the `[DONE]` sentinel (empty if there is none). -/
def firstNameFrag (idx : ℕ) (events : List StreamEvent) : List Char :=
  firstNameFold idx [] events

/-- Specification-side fold: all content fragments concatenated in
stream order up to the `[DONE]` sentinel. -/
def contentConcat : List StreamEvent → List Char
  | [] => []
  | .done :: _ => []
  | .skip :: rest => contentConcat rest
  | .delta c _ :: rest => c.getD [] ++ contentConcat rest

/-- Option-level argument accumulator for index `idx`: `none` while no
chunk for `idx` has been seen, `some` of the entry's argument string
afterwards — mirroring the dictionary entry's lifecycle. -/
def argsChunkStep (idx : ℕ) (c : Option (List Char)) (tc : ToolCallChunk) :
    Option (List Char) :=
  if tc.index = idx then some (c.getD [] ++ tc.args.getD []) else c

/-- Option-level name accumulator for index `idx`. -/
def nameChunkStep (idx : ℕ) (c : Option (List Char)) (tc : ToolCallChunk) :
    Option (List Char) :=
  if tc.index = idx then some (nameUpdOf tc (c.getD [])) else c

/-- Fold `argsChunkStep` over the events up to the `[DONE]` sentinel. -/
def argsOptFold (idx : ℕ) : Option (List Char) → List StreamEvent → Option (List Char)
  | cur, [] => cur
  | cur, .done :: _ => cur
  | cur, .skip :: rest => argsOptFold idx cur rest
  | cur, .delta _ tcs :: rest => argsOptFold idx (tcs.foldl (argsChunkStep idx) cur) rest

/-- Fold `nameChunkStep` over the events up to the `[DONE]` sentinel. -/
def nameOptFold (idx : ℕ) : Option (List Char) → List StreamEvent → Option (List Char)
  | cur, [] => cur
  | cur, .done :: _ => cur
  | cur, .skip :: rest => nameOptFold idx cur rest
  | cur, .delta _ tcs :: rest => nameOptFold idx (tcs.foldl (nameChunkStep idx) cur) rest

/-- Association-list lookup by index (proof-side view of the Python
dictionary). -/
def lookupIdx (idx : ℕ) : List (ℕ × ToolEntry) → Option ToolEntry
  | [] => none
  | (i, e) :: rest => if i = idx then some e else lookupIdx idx rest

/-! # Theorems -/

/-- C5: the unit parsers return exactly the specified values — 50 for
"50m", 100 for "0.1", 2000 for "2", 125829120 for "120Mi", 1610612736
for "1.5Gi", 500000 for "500K", 2000000000 for "2G" — and, witnessing
the base rule on the remaining suffixes, binary base 1024^n for
Ki/Mi/Gi/Ti/Pi/Ei and decimal base 1000^n for K/M/G/T. -/
theorem c5_unit_parsers_exact_values :
    parse_cpu_to_millicores "50m".data = some 50 ∧
    parse_cpu_to_millicores "0.1".data = some 100 ∧
    parse_cpu_to_millicores "2".data = some 2000 ∧
    parse_memory_to_bytes "120Mi".data = some 125829120 ∧
    parse_memory_to_bytes "1.5Gi".data = some 1610612736 ∧
    parse_memory_to_bytes "500K".data = some 500000 ∧
    parse_memory_to_bytes "2G".data = some 2000000000 ∧
    parse_memory_to_bytes "1Ki".data = some 1024 ∧
    parse_memory_to_bytes "1Ti".data = some (1024 ^ 4) ∧
    parse_memory_to_bytes "1Pi".data = some (1024 ^ 5) ∧
    parse_memory_to_bytes "1Ei".data = some (1024 ^ 6) ∧
    parse_memory_to_bytes "1M".data = some (1000 ^ 2) ∧
    parse_memory_to_bytes "1T".data = some (1000 ^ 4) := by
  decide

/-- C10: the metric unit parsers are not total — `parse_cpu_to_millicores`
raises `ValueError` (modelled `none`) on the fractional millicore string
"0.5m", and `parse_memory_to_bytes` raises on the suffix-less fractional
string "1.5". -/
theorem c10_parsers_not_total :
    parse_cpu_to_millicores "0.5m".data = none ∧
    parse_memory_to_bytes "1.5".data = none := by
  decide

/-- C1 counterexample: an attempt whose executor reports failure — the
Recovery Oracle is *not* invoked for it (`verifyInvoked = false`), even
though the oracle would have answered `true`; this falsifies the claim
that execution is always followed by a verification attempt. -/
theorem c1_counterexample_exec_failure_not_verified :
    (execute_and_verify ⟨false, "exit code 2".data⟩ true).verifyInvoked = false ∧
    (execute_and_verify ⟨false, "exit code 2".data⟩ true).verified = false := by
  decide

/-- C1 amended: `execute_and_verify` invokes the Recovery Oracle exactly
when the Action Executor reports success; on an executor failure
(non-zero exit, timeout or missing executable, all reported as
`status = False`) the attempt's verification outcome is taken to be
`False` without consulting the oracle. -/
theorem c1_verification_iff_exec_success :
    ∀ (ex : ExecOutcome) (v : Bool),
      (execute_and_verify ex v).verifyInvoked = ex.status ∧
      (execute_and_verify ex v).verified = (ex.status && v) ∧
      (execute_and_verify ex v).playbook_exec_status = ex.status ∧
      (execute_and_verify ex v).output = ex.output := by
  intro ex v
  cases ex with
  | mk st out => cases st <;> cases v <;> simp [execute_and_verify]

/-- C2: when remediation returns a transcript the orchestrator calls
`stop_injection` and `restore_by_original_manifest` exactly once; but
when remediation fails outright — the ThinkRemed error value
`(False, -1)` or a raised exception — the campaign crashes inside
`estimate_token_count` (or from the uncaught exception) before either
call is reached, contradicting the claim. -/
theorem c2_error_value_skips_stop_and_restore :
    experiment_tail (RemediateResult.transcript [] 1) =
      ⟨false, 1, 1⟩ ∧
    experiment_tail RemediateResult.errorValue = ⟨true, 0, 0⟩ ∧
    experiment_tail RemediateResult.raised = ⟨true, 0, 0⟩ := by
  decide

/-- C3 counterexample: a mid-campaign environment redeploy failure
(`deploy.sh` exiting non-zero) terminates the whole campaign process —
`deploy_env` calls `sys.exit(1)` — instead of abandoning the slot and
proceeding, falsifying the claim that no in-loop error class is fatal. -/
theorem c3_counterexample_redeploy_failure_fatal :
    campaignStep LoopEvent.healthRedeployFail = StepOutcome.processExit ∧
    StepOutcome.processExit ≠ StepOutcome.nextSlot := by
  decide

/-- C3 amended: in-loop errors reported as return values — injection
apply failure, injection timeout, restoration failure, a successful
redeploy after a health-check failure, and remediation that returns a
transcript — are absorbed and the loop proceeds to the next slot; but a
failed mid-campaign redeploy (`sys.exit(1)`), a missing chaos template
(`FileNotFoundError`), a remediation error value (`TypeError` in
`estimate_token_count`) and a raised remediation all terminate the
campaign process. -/
theorem c3_campaign_fatal_event_characterization :
    ∀ e : LoopEvent,
      campaignStep e = StepOutcome.processExit ↔
        (e = LoopEvent.healthRedeployFail ∨
         e = LoopEvent.injectionTemplateMissing ∨
         e = LoopEvent.remediationErrorValue ∨
         e = LoopEvent.remediationRaised) := by
  intro e
  cases e <;> simp [campaignStep]

/-- C7 counterexample: a pod whose timed write reports a duration of
10000 ms (throughput 1 MB/s, below the 10 MB/s threshold) fails the
check and the clean-up `rm` command is *not* issued for it, falsifying
"clean up the test artifact regardless of outcome". -/
theorem c7_counterexample_failing_check_skips_cleanup :
    diskPodStep 10 ⟨DiskExec.output "10000".data, false⟩ = (false, false) := by
  decide

/-- C7 amended: in every round of the disk I/O predicate, the clean-up
command is issued for a pod exactly when that pod's throughput check
passes (output parsed and speed at or above the threshold); after a
failing check or an execution/parse error no clean-up is issued, and a
pod is counted healthy iff its check passed and the clean-up did not
time out. -/
theorem c7_cleanup_iff_check_passed :
    ∀ (min_speed : Int) (p : DiskProbe),
      (diskPodStep min_speed p).2 = diskCheckPassed min_speed p.exec ∧
      (diskPodStep min_speed p).1 =
        (diskCheckPassed min_speed p.exec && !p.cleanupRaises) := by
  intro m p
  cases p with
  | mk e c =>
    cases e with
    | raised => simp [diskPodStep, diskCheckPassed]
    | output out =>
      simp only [diskPodStep, diskCheckPassed]
      split
      · simp
      · split
        · simp
        · split <;> split <;> simp_all

/-- The retry loop performs at most `fuel` further execute/verify
cycles. -/
lemma remedRetryLoop_execCount_le (attempts : ℕ → ExecOutcome × Bool)
    (retryGenOk : ℕ → Bool) :
    ∀ (fuel tryTime execCount : ℕ) (status : Bool),
      (remedRetryLoop attempts retryGenOk fuel tryTime execCount status).execCount ≤
        execCount + fuel := by
  intro fuel
  induction fuel with
  | zero => intro t e s; simp [remedRetryLoop]
  | succ n ih =>
    intro t e s
    simp only [remedRetryLoop]
    split
    · simp
    · split
      · exact le_trans (ih (t + 1) (e + 1) _) (by omega)
      · simp

/-- The returned attempt count and the execute/verify cycle count move
in lockstep through the retry loop. -/
lemma remedRetryLoop_tryTime_eq (attempts : ℕ → ExecOutcome × Bool)
    (retryGenOk : ℕ → Bool) :
    ∀ (fuel tryTime execCount : ℕ) (status : Bool),
      (remedRetryLoop attempts retryGenOk fuel tryTime execCount status).tryTime + execCount =
        (remedRetryLoop attempts retryGenOk fuel tryTime execCount status).execCount + tryTime := by
  intro fuel
  induction fuel with
  | zero => intro t e s; simp [remedRetryLoop]; omega
  | succ n ih =>
    intro t e s
    simp only [remedRetryLoop]
    split
    · simp; omega
    · split
      · have h := ih (t + 1) (e + 1)
          (execute_and_verify (attempts e).1 (attempts e).2).verified
        omega
      · simp; omega

/-- If every execute/verify cycle yields a failed verification, the
loop never flips the status. -/
lemma remedRetryLoop_finalStatus_false (attempts : ℕ → ExecOutcome × Bool)
    (retryGenOk : ℕ → Bool)
    (hall : ∀ k, (execute_and_verify (attempts k).1 (attempts k).2).verified = false) :
    ∀ (fuel tryTime execCount : ℕ),
      (remedRetryLoop attempts retryGenOk fuel tryTime execCount false).finalStatus = false := by
  intro fuel
  induction fuel with
  | zero => intro t e; simp [remedRetryLoop]
  | succ n ih =>
    intro t e
    simp only [remedRetryLoop]
    split
    · simp_all
    · split
      · rw [hall e]; exact ih (t + 1) (e + 1)
      · simp

/-- C6: the Remediation Agent Loop performs at most `maxRetry + 1`
execute/verify cycles and returns that cycle count as the attempt
count; in particular, when every cycle's verification fails, with the
default `MAX_RETRY_TIME = 1` it makes at most 2 action-executor
invocations and comes back with a failed status. -/
theorem c6_retry_bound :
    (∀ (maxRetry : ℕ) (genInitOk : Bool) (attempts : ℕ → ExecOutcome × Bool)
        (retryGenOk : ℕ → Bool) (t : RemedTrace),
        remediate_failure maxRetry genInitOk attempts retryGenOk = some t →
        t.execCount ≤ maxRetry + 1 ∧ t.tryTime = t.execCount) ∧
    (∀ (attempts : ℕ → ExecOutcome × Bool) (retryGenOk : ℕ → Bool),
        (∀ k, (execute_and_verify (attempts k).1 (attempts k).2).verified = false) →
        ∃ t : RemedTrace,
          remediate_failure MAX_RETRY_TIME true attempts retryGenOk = some t ∧
          t.execCount ≤ MAX_RETRY_TIME + 1 ∧ t.finalStatus = false) := by
  constructor
  · intro maxRetry genInitOk attempts retryGenOk t h
    cases genInitOk with
    | false => simp [remediate_failure] at h
    | true =>
      simp only [remediate_failure, Bool.not_true, Bool.false_eq_true, if_false,
        Option.some.injEq] at h
      subst h
      refine ⟨le_trans (remedRetryLoop_execCount_le attempts retryGenOk maxRetry 1 1 _)
        (by omega), ?_⟩
      have := remedRetryLoop_tryTime_eq attempts retryGenOk maxRetry 1 1
        (execute_and_verify (attempts 0).1 (attempts 0).2).verified
      omega
  · intro attempts retryGenOk hall
    refine ⟨_, rfl, ?_, ?_⟩
    · exact le_trans
        (remedRetryLoop_execCount_le attempts retryGenOk MAX_RETRY_TIME 1 1 _) (by omega)
    · rw [hall 0]
      exact remedRetryLoop_finalStatus_false attempts retryGenOk hall MAX_RETRY_TIME 1 1

/-- C6 witness: with every verification failing and regeneration always
succeeding, the default-configuration loop stops after exactly 2
execute/verify cycles with a failed status. -/
theorem c6_retry_bound_witness :
    (∃ t : RemedTrace,
        remediate_failure MAX_RETRY_TIME true (fun _ => (⟨false, []⟩, false))
          (fun _ => true) = some t ∧
        t.execCount ≤ MAX_RETRY_TIME + 1 ∧ t.finalStatus = false) ∧
    ((⟨2, 2, false⟩ : RemedTrace).execCount ≤ MAX_RETRY_TIME + 1 ∧
      (⟨2, 2, false⟩ : RemedTrace).tryTime = (⟨2, 2, false⟩ : RemedTrace).execCount) :=
  ⟨c6_retry_bound.2 (fun _ => (⟨false, []⟩, false)) (fun _ => true) (fun _ => rfl),
   c6_retry_bound.1 MAX_RETRY_TIME true (fun _ => (⟨false, []⟩, false)) (fun _ => true)
     ⟨2, 2, false⟩ (by decide)⟩

/-- A CPU row judged without exception is normal exactly when it does
not fail its threshold. -/
lemma cpuSampleNormal_ok_eq (thr : DecLit) (s : CpuSample) (b : Bool)
    (h : cpuSampleNormal thr s = PyResult.ok b) :
    b = !cpuSampleJudgedFails thr s := by
  unfold cpuSampleNormal at h
  unfold cpuSampleJudgedFails
  split at h
  next h1 =>
    injection h with hb
    subst hb
    simp [h1]
  next h1 =>
    split at h
    next h2 =>
      injection h with hb
      subst hb
      have h2' : s.podFound = false := by simpa using h2
      simp [h1, h2']
    next h2 =>
      have h2' : s.podFound = true := by simpa using h2
      split at h
      next hp => exact PyResult.noConfusion h
      next usage hp =>
        split at h
        next hl => exact PyResult.noConfusion h
        next hl =>
          injection h with hb
          subst hb
          simp [h1, h2', hp, hl]
        next l hl =>
          split at h
          next h0 =>
            injection h with hb
            subst hb
            simp [h1, h2', hp, hl, h0]
          next h0 =>
            injection h with hb
            subst hb
            simp [h1, h2', hp, hl, h0]

/-- A sampled row list is judged all-normal exactly when no row fails
its threshold. -/
lemma cpuRoundNormal_ok_eq (thr : DecLit) :
    ∀ (rows : List CpuSample) (b : Bool),
      cpuRoundNormal thr rows = PyResult.ok b →
      b = rows.all (fun s => !cpuSampleJudgedFails thr s) := by
  intro rows
  induction rows with
  | nil =>
    intro b h
    simp only [cpuRoundNormal] at h
    injection h with hb
    subst hb
    simp
  | cons s rest ih =>
    intro b h
    simp only [cpuRoundNormal] at h
    split at h
    next hs => exact PyResult.noConfusion h
    next bs hs =>
      split at h
      next hr => exact PyResult.noConfusion h
      next br hr =>
        injection h with hb
        subst hb
        rw [List.all_cons, ← cpuSampleNormal_ok_eq thr s bs hs, ← ih br hr]

/-- A container list that is judged all-normal contains no failing
judged container. -/
lemma memContainersNormal_ok_true (thr : DecLit) :
    ∀ cs : List MemContainer,
      memContainersNormal thr cs = PyResult.ok true →
      ∀ c ∈ cs, memContainerJudgedFails thr c = false := by
  intro cs
  induction cs with
  | nil => intro _ c hc; simp at hc
  | cons c0 rest ih =>
    intro h c hc
    simp only [memContainersNormal] at h
    split at h
    next hl => exact PyResult.noConfusion h
    next lim hl =>
      split at h
      next hr => exact PyResult.noConfusion h
      next b hr =>
        injection h with hb
        rw [Bool.and_eq_true] at hb
        rcases List.mem_cons.mp hc with hc | hc
        · subst hc
          unfold memContainerJudgedFails
          cases lim with
          | none => simp [hl]
          | some l =>
            by_cases h0 : l = 0
            · simp [hl, h0]
            · have hratio : (match c.usage with
                  | none => false
                  | some u => !ratioGe u l thr) = true := by
                simpa [h0] using hb.1
              cases hu : c.usage with
              | none => rw [hu] at hratio; exact absurd hratio (by simp)
              | some u =>
                have hr' : ratioGe u l thr = false := by simpa [hu] using hratio
                simp [hl, h0, hu, hr']
        · exact ih (by rw [hr, hb.2]) c hc

/-- A pod containing a failing judged container is not normal. -/
lemma memPodNormal_false_of_fails (thr : DecLit) (cs : List MemContainer)
    (c : MemContainer) (hc : c ∈ cs)
    (hf : memContainerJudgedFails thr c = true) :
    memPodNormal thr (MemPod.pod cs) = false := by
  have hns : isSidecarMemContainer c.name = false := by
    unfold memContainerJudgedFails at hf
    rw [Bool.and_eq_true] at hf
    simpa using hf.1
  have hmem : c ∈ cs.filter (fun c => !isSidecarMemContainer c.name) := by
    rw [List.mem_filter]
    exact ⟨hc, by simp [hns]⟩
  have hne : (cs.filter (fun c => !isSidecarMemContainer c.name)).isEmpty = false := by
    cases hF : cs.filter (fun c => !isSidecarMemContainer c.name) with
    | nil => rw [hF] at hmem; simp at hmem
    | cons a l => rfl
  simp only [memPodNormal]
  rw [if_neg (by simp [hne])]
  cases hn : memContainersNormal thr (cs.filter (fun c => !isSidecarMemContainer c.name)) with
  | exn => rfl
  | ok b =>
    cases b with
    | false => rfl
    | true =>
      have := memContainersNormal_ok_true thr _ hn c hmem
      rw [hf] at this
      cases this

/-- C4: in the CPU and memory predicates, any single judged (non-
sidecar, limit-bearing) container failing its usage-to-limit threshold
fails the whole sampled round, and the predicate returns `True` exactly
when some single round fully passes — one fully-passing round, never a
majority. -/
theorem c4_single_failure_fails_round :
    (∀ (thr : DecLit) (rows : List CpuSample) (s : CpuSample),
        s ∈ rows → cpuSampleJudgedFails thr s = true →
        cpuRoundPasses thr (CpuRound.samples rows) = false) ∧
    (∀ (thr : DecLit) (rounds : List CpuRound),
        check_cpu_stress_recovered thr rounds = true ↔
          ∃ r ∈ rounds, cpuRoundPasses thr r = true) ∧
    (∀ (thr : DecLit) (ps : List MemPod) (cs : List MemContainer) (c : MemContainer),
        MemPod.pod cs ∈ ps → c ∈ cs → memContainerJudgedFails thr c = true →
        memRoundPasses thr (MemRound.pods ps) = false) ∧
    (∀ (thr : DecLit) (rounds : List MemRound),
        check_memory_stress_recovered thr rounds = true ↔
          ∃ r ∈ rounds, memRoundPasses thr r = true) := by
  refine ⟨?_, ?_, ?_, ?_⟩
  · intro thr rows s hs hf
    simp only [cpuRoundPasses]
    cases hr : cpuRoundNormal thr rows with
    | exn => rfl
    | ok b =>
      have hb := cpuRoundNormal_ok_eq thr rows b hr
      have hall : rows.all (fun s => !cpuSampleJudgedFails thr s) = false := by
        cases hA : rows.all (fun s => !cpuSampleJudgedFails thr s) with
        | false => rfl
        | true =>
          have := List.all_eq_true.mp hA s hs
          rw [hf] at this
          simp at this
      show b = false
      exact hb.trans hall
  · intro thr rounds
    simp [check_cpu_stress_recovered, List.any_eq_true]
  · intro thr ps cs c hp hc hf
    simp only [memRoundPasses]
    cases hA : ps.all (memPodNormal thr) with
    | false => rfl
    | true =>
      have := List.all_eq_true.mp hA (MemPod.pod cs) hp
      rw [memPodNormal_false_of_fails thr cs c hc hf] at this
      cases this
  · intro thr rounds
    simp [check_memory_stress_recovered, List.any_eq_true]

/-- C4 witness: the synthetic fixture — three CPU containers of which
one (900m of a 1-core limit) exceeds the 0.5 ratio, and a memory pod
whose single judged container (800Mi of a 900Mi limit) exceeds the 0.5
ratio — fails the respective rounds. -/
theorem c4_single_failure_fails_round_witness :
    cpuRoundPasses ⟨5, 1⟩ (CpuRound.samples
      [⟨"p1".data, "app1".data, "100m".data, true, some "1".data⟩,
       ⟨"p2".data, "app2".data, "100m".data, true, some "1".data⟩,
       ⟨"p3".data, "app3".data, "900m".data, true, some "1".data⟩]) = false ∧
    memRoundPasses ⟨5, 1⟩ (MemRound.pods
      [MemPod.pod [⟨"main".data, some "900Mi".data, some 838860800⟩]]) = false :=
  ⟨c4_single_failure_fails_round.1 ⟨5, 1⟩
      [⟨"p1".data, "app1".data, "100m".data, true, some "1".data⟩,
       ⟨"p2".data, "app2".data, "100m".data, true, some "1".data⟩,
       ⟨"p3".data, "app3".data, "900m".data, true, some "1".data⟩]
      ⟨"p3".data, "app3".data, "900m".data, true, some "1".data⟩
      (by decide) (by decide),
   c4_single_failure_fails_round.2.2.1 ⟨5, 1⟩
      [MemPod.pod [⟨"main".data, some "900Mi".data, some 838860800⟩]]
      [⟨"main".data, some "900Mi".data, some 838860800⟩]
      ⟨"main".data, some "900Mi".data, some 838860800⟩
      (by decide) (by decide) (by decide)⟩

/-- C8: in the network recovery predicate, an output with no parsable
packet-loss summary is taken as 100% loss and fails its pod (for any
loss threshold below 100, in particular the default 0); a pod passes
only if its parsed loss is within the loss threshold and a parsed
average latency exists within the latency threshold; the predicate
returns `True` exactly when some round has every pod passing — so on
timeout (rounds exhausted) it returns `False` — and any failing pod
fails its whole round.  Totality of the embedding (every caught
exception is an explicit constructor) reflects that the predicate never
raises. -/
theorem c8_ping_loss_default_and_thresholds :
    (∀ output : List Char,
        (∀ line ∈ splitOnChar '\n' output,
            (containsSub "packet loss".data line &&
              containsSub "transmitted".data line) = false) →
        parseLossPercent output = ⟨100, 0⟩) ∧
    (∀ (max_loss max_latency : DecLit) (rc : Int) (output : List Char),
        decGt ⟨100, 0⟩ max_loss = true →
        (∀ line ∈ splitOnChar '\n' output,
            (containsSub "packet loss".data line &&
              containsSub "transmitted".data line) = false) →
        pingEval max_loss max_latency rc output = false) ∧
    (∀ (max_loss max_latency : DecLit) (rc : Int) (output : List Char),
        pingEval max_loss max_latency rc output = true →
        decGt (parseLossPercent output) max_loss = false ∧
        ∃ lat, parseAvgLatency output = some lat ∧ decGt lat max_latency = false) ∧
    (∀ (max_loss max_latency : DecLit) (rounds : List PingRound),
        check_ping_latency_recovered max_loss max_latency rounds = true ↔
          ∃ r ∈ rounds, pingRoundPasses max_loss max_latency r = true) ∧
    (∀ (max_loss max_latency : DecLit) (ps : List PingProbe) (p : PingProbe),
        p ∈ ps → pingPodOk max_loss max_latency p = false →
        pingRoundPasses max_loss max_latency (PingRound.pods ps) = false) := by
  have hloss : ∀ output : List Char,
      (∀ line ∈ splitOnChar '\n' output,
          (containsSub "packet loss".data line &&
            containsSub "transmitted".data line) = false) →
      parseLossPercent output = ⟨100, 0⟩ := by
    intro output h
    unfold parseLossPercent
    have hfind : (splitOnChar '\n' output).find?
        (fun l => containsSub "packet loss".data l && containsSub "transmitted".data l) =
          none := by
      rw [List.find?_eq_none]
      intro x hx
      rw [h x hx]
      simp
    rw [hfind]
  refine ⟨hloss, ?_, ?_, ?_, ?_⟩
  · intro max_loss max_latency rc output h100 h
    unfold pingEval
    split
    · rfl
    · rw [hloss output h, h100]
      simp
  · intro max_loss max_latency rc output h
    unfold pingEval at h
    split at h
    · cases h
    · split at h
      next hgt => cases h
      next hgt =>
        refine ⟨by simpa using hgt, ?_⟩
        cases hlat : parseAvgLatency output with
        | none => rw [hlat] at h; cases h
        | some lat =>
          rw [hlat] at h
          exact ⟨lat, rfl, by simpa using h⟩
  · intro max_loss max_latency rounds
    simp [check_ping_latency_recovered, List.any_eq_true]
  · intro max_loss max_latency ps p hp hf
    simp only [pingRoundPasses]
    cases hA : ps.all (pingPodOk max_loss max_latency) with
    | false => rfl
    | true =>
      have := List.all_eq_true.mp hA p hp
      rw [hf] at this
      cases this

/-- C8 witness: unparsable garbage probe output parses as 100% loss and
fails its pod under the default thresholds, while a healthy ping
transcript passes with parsed loss 0% and average latency 0.062 ms. -/
theorem c8_ping_witness :
    parseLossPercent "garbage output".data = ⟨100, 0⟩ ∧
    pingEval ⟨0, 0⟩ ⟨1000, 0⟩ 0 "garbage output".data = false ∧
    (decGt (parseLossPercent
        "3 packets transmitted, 3 received, 0% packet loss, time 2003ms\nrtt min/avg/max/mdev = 0.045/0.062/0.078/0.013 ms".data)
        ⟨0, 0⟩ = false ∧
      ∃ lat, parseAvgLatency
          "3 packets transmitted, 3 received, 0% packet loss, time 2003ms\nrtt min/avg/max/mdev = 0.045/0.062/0.078/0.013 ms".data
          = some lat ∧ decGt lat ⟨1000, 0⟩ = false) :=
  ⟨c8_ping_loss_default_and_thresholds.1 "garbage output".data (by decide),
   c8_ping_loss_default_and_thresholds.2.1 ⟨0, 0⟩ ⟨1000, 0⟩ 0 "garbage output".data
     (by decide) (by decide),
   c8_ping_loss_default_and_thresholds.2.2.1 ⟨0, 0⟩ ⟨1000, 0⟩ 0
     "3 packets transmitted, 3 received, 0% packet loss, time 2003ms\nrtt min/avg/max/mdev = 0.045/0.062/0.078/0.013 ms".data
     (by decide)⟩

/-- The chunk update appends exactly the chunk's argument fragment. -/
lemma updateEntry_args (tc : ToolCallChunk) (e : ToolEntry) :
    (updateEntry tc e).args = e.args ++ tc.args.getD [] := by
  unfold updateEntry
  cases hn : tc.name with
  | none =>
    cases ha : tc.args with
    | none => simp
    | some a => by_cases h : a = [] <;> simp [h]
  | some n =>
    cases ha : tc.args with
    | none => by_cases h : n = [] <;> simp [h]
    | some a =>
      by_cases h : n = [] <;> by_cases h2 : a = [] <;> simp [h, h2]

/-- The chunk update rewrites the name exactly by `nameUpdOf`. -/
lemma updateEntry_name (tc : ToolCallChunk) (e : ToolEntry) :
    (updateEntry tc e).name = nameUpdOf tc e.name := by
  unfold updateEntry nameUpdOf
  cases hn : tc.name with
  | none =>
    cases ha : tc.args with
    | none => simp
    | some a => by_cases h : a = [] <;> simp [h]
  | some n =>
    cases ha : tc.args with
    | none => by_cases h : n = [] <;> simp [h]
    | some a =>
      by_cases h : n = [] <;> by_cases h2 : a = [] <;> simp [h, h2]

/-- Dictionary lookup after applying one chunk: the chunk's index maps
to the updated (or freshly initialised and updated) entry, every other
index is untouched. -/
lemma lookupIdx_applyChunkToList (tc : ToolCallChunk) :
    ∀ (l : List (ℕ × ToolEntry)) (idx : ℕ),
      lookupIdx idx (applyChunkToList tc l) =
        if idx = tc.index then
          some (updateEntry tc ((lookupIdx tc.index l).getD (initEntry tc)))
        else lookupIdx idx l := by
  intro l
  induction l with
  | nil =>
    intro idx
    by_cases h : idx = tc.index
    · simp [applyChunkToList, lookupIdx, h]
    · have h2 : ¬tc.index = idx := fun hh => h hh.symm
      simp [applyChunkToList, lookupIdx, h, h2]
  | cons p rest ih =>
    rcases p with ⟨i, e⟩
    intro idx
    simp only [applyChunkToList]
    by_cases hi : i = tc.index
    · rw [if_pos hi]
      simp only [lookupIdx]
      by_cases hx : i = idx
      · have hxt : idx = tc.index := hx.symm.trans hi
        rw [if_pos hx, if_pos hxt]
        simp [lookupIdx, hi]
      · have hxt : ¬idx = tc.index := fun hh => hx (hi.trans hh.symm)
        rw [if_neg hx, if_neg hxt]
        simp [lookupIdx, hx]
    · rw [if_neg hi]
      simp only [lookupIdx]
      by_cases hx : i = idx
      · have hxt : ¬idx = tc.index := fun hh => hi (hx.trans hh)
        rw [if_pos hx, if_neg hxt]
        simp [lookupIdx, hx]
      · rw [if_neg hx, ih idx]
        by_cases hT : idx = tc.index
        · rw [if_pos hT, if_pos hT]
          simp [lookupIdx, hi]
        · rw [if_neg hT, if_neg hT]
          simp [lookupIdx, hx]

/-- Argument projection of the lookup, after one chunk. -/
lemma lookup_args_applyChunk (tc : ToolCallChunk) (l : List (ℕ × ToolEntry)) (idx : ℕ) :
    (lookupIdx idx (applyChunkToList tc l)).map ToolEntry.args =
      argsChunkStep idx ((lookupIdx idx l).map ToolEntry.args) tc := by
  rw [lookupIdx_applyChunkToList]
  unfold argsChunkStep
  by_cases h : idx = tc.index
  · rw [if_pos h, if_pos h.symm, ← h]
    cases lookupIdx idx l with
    | none => simp [updateEntry_args, initEntry]
    | some e => simp [updateEntry_args]
  · rw [if_neg h, if_neg (fun hh => h hh.symm)]

/-- Name projection of the lookup, after one chunk. -/
lemma lookup_name_applyChunk (tc : ToolCallChunk) (l : List (ℕ × ToolEntry)) (idx : ℕ) :
    (lookupIdx idx (applyChunkToList tc l)).map ToolEntry.name =
      nameChunkStep idx ((lookupIdx idx l).map ToolEntry.name) tc := by
  rw [lookupIdx_applyChunkToList]
  unfold nameChunkStep
  by_cases h : idx = tc.index
  · rw [if_pos h, if_pos h.symm, ← h]
    cases lookupIdx idx l with
    | none => simp [updateEntry_name, initEntry]
    | some e => simp [updateEntry_name]
  · rw [if_neg h, if_neg (fun hh => h hh.symm)]

/-- Argument projection of the lookup, after a whole chunk list. -/
lemma lookup_args_applyChunks (idx : ℕ) :
    ∀ (tcs : List ToolCallChunk) (l : List (ℕ × ToolEntry)),
      (lookupIdx idx (tcs.foldl (fun acc tc => applyChunkToList tc acc) l)).map ToolEntry.args =
        tcs.foldl (argsChunkStep idx) ((lookupIdx idx l).map ToolEntry.args) := by
  intro tcs
  induction tcs with
  | nil => intro l; rfl
  | cons tc rest ih =>
    intro l
    simp only [List.foldl_cons]
    rw [ih, lookup_args_applyChunk]

/-- Name projection of the lookup, after a whole chunk list. -/
lemma lookup_name_applyChunks (idx : ℕ) :
    ∀ (tcs : List ToolCallChunk) (l : List (ℕ × ToolEntry)),
      (lookupIdx idx (tcs.foldl (fun acc tc => applyChunkToList tc acc) l)).map ToolEntry.name =
        tcs.foldl (nameChunkStep idx) ((lookupIdx idx l).map ToolEntry.name) := by
  intro tcs
  induction tcs with
  | nil => intro l; rfl
  | cons tc rest ih =>
    intro l
    simp only [List.foldl_cons]
    rw [ih, lookup_name_applyChunk]

/-- Argument projection of the lookup, over the whole event stream. -/
lemma processEvents_lookup_args (idx : ℕ) :
    ∀ (events : List StreamEvent) (st : StreamState),
      ((lookupIdx idx (processEvents st events).tool_calls).map ToolEntry.args) =
        argsOptFold idx ((lookupIdx idx st.tool_calls).map ToolEntry.args) events := by
  intro events
  induction events with
  | nil => intro st; rfl
  | cons e rest ih =>
    intro st
    cases e with
    | done => rfl
    | skip => exact ih st
    | delta c tcs =>
      show ((lookupIdx idx (processEvents (applyDelta st c tcs) rest).tool_calls).map
          ToolEntry.args) = _
      rw [ih (applyDelta st c tcs)]
      show argsOptFold idx
          ((lookupIdx idx (tcs.foldl (fun acc tc => applyChunkToList tc acc) st.tool_calls)).map
            ToolEntry.args) rest = _
      rw [lookup_args_applyChunks]
      rfl

/-- Name projection of the lookup, over the whole event stream. -/
lemma processEvents_lookup_name (idx : ℕ) :
    ∀ (events : List StreamEvent) (st : StreamState),
      ((lookupIdx idx (processEvents st events).tool_calls).map ToolEntry.name) =
        nameOptFold idx ((lookupIdx idx st.tool_calls).map ToolEntry.name) events := by
  intro events
  induction events with
  | nil => intro st; rfl
  | cons e rest ih =>
    intro st
    cases e with
    | done => rfl
    | skip => exact ih st
    | delta c tcs =>
      show ((lookupIdx idx (processEvents (applyDelta st c tcs) rest).tool_calls).map
          ToolEntry.name) = _
      rw [ih (applyDelta st c tcs)]
      show nameOptFold idx
          ((lookupIdx idx (tcs.foldl (fun acc tc => applyChunkToList tc acc) st.tool_calls)).map
            ToolEntry.name) rest = _
      rw [lookup_name_applyChunks]
      rfl

/-- The plain argument fold distributes over a prefixed accumulator. -/
lemma argsChunkPlain_append (idx : ℕ) :
    ∀ (tcs : List ToolCallChunk) (a b : List Char),
      tcs.foldl (argsChunkPlain idx) (a ++ b) = a ++ tcs.foldl (argsChunkPlain idx) b := by
  intro tcs
  induction tcs with
  | nil => intro a b; rfl
  | cons tc rest ih =>
    intro a b
    simp only [List.foldl_cons, argsChunkPlain]
    by_cases h : tc.index = idx
    · rw [if_pos h, if_pos h, List.append_assoc]
      exact ih a (b ++ tc.args.getD [])
    · rw [if_neg h, if_neg h]
      exact ih a b

/-- Once an entry exists, the option-level argument fold tracks the
plain fold. -/
lemma argsChunkFold_some (idx : ℕ) :
    ∀ (tcs : List ToolCallChunk) (v : List Char),
      tcs.foldl (argsChunkStep idx) (some v) =
        some (tcs.foldl (argsChunkPlain idx) v) := by
  intro tcs
  induction tcs with
  | nil => intro v; rfl
  | cons tc rest ih =>
    intro v
    simp only [List.foldl_cons, argsChunkStep, argsChunkPlain, Option.getD_some]
    by_cases h : tc.index = idx
    · rw [if_pos h, if_pos h]
      exact ih (v ++ tc.args.getD [])
    · rw [if_neg h, if_neg h]
      exact ih v

/-- From an absent entry, a chunk list either never touches the index
(and contributes nothing) or creates the entry tracking the plain
fold. -/
lemma argsChunkFold_none (idx : ℕ) :
    ∀ tcs : List ToolCallChunk,
      (tcs.foldl (argsChunkStep idx) none = none ∧
        tcs.foldl (argsChunkPlain idx) [] = []) ∨
      tcs.foldl (argsChunkStep idx) none =
        some (tcs.foldl (argsChunkPlain idx) []) := by
  intro tcs
  induction tcs with
  | nil => exact Or.inl ⟨rfl, rfl⟩
  | cons tc rest ih =>
    by_cases h : tc.index = idx
    · right
      simp only [List.foldl_cons, argsChunkStep, argsChunkPlain, if_pos h,
        Option.getD_none]
      exact argsChunkFold_some idx rest ([] ++ tc.args.getD [])
    · simp only [List.foldl_cons, argsChunkStep, argsChunkPlain, if_neg h]
      exact ih

/-- Event-stream version of `argsChunkFold_some`. -/
lemma argsOptFold_some (idx : ℕ) :
    ∀ (events : List StreamEvent) (v : List Char),
      argsOptFold idx (some v) events = some (v ++ argConcat idx events) := by
  intro events
  induction events with
  | nil => intro v; simp [argsOptFold, argConcat]
  | cons e rest ih =>
    intro v
    cases e with
    | done => simp [argsOptFold, argConcat]
    | skip =>
      simp only [argsOptFold, argConcat]
      exact ih v
    | delta c tcs =>
      simp only [argsOptFold, argConcat]
      rw [argsChunkFold_some idx tcs v, ih]
      have hv : tcs.foldl (argsChunkPlain idx) v = v ++ tcs.foldl (argsChunkPlain idx) [] := by
        have := argsChunkPlain_append idx tcs v []
        simpa using this
      rw [hv, List.append_assoc]

/-- Event-stream version of `argsChunkFold_none`: from the empty
initial dictionary the entry's final arguments, when the entry exists,
are exactly the stream-order concatenation of its fragments. -/
lemma argsOptFold_none (idx : ℕ) :
    ∀ events : List StreamEvent,
      argsOptFold idx none events = none ∨
      argsOptFold idx none events = some (argConcat idx events) := by
  intro events
  induction events with
  | nil => exact Or.inl rfl
  | cons e rest ih =>
    cases e with
    | done => exact Or.inl rfl
    | skip =>
      simp only [argsOptFold, argConcat]
      exact ih
    | delta c tcs =>
      simp only [argsOptFold, argConcat]
      rcases argsChunkFold_none idx tcs with ⟨h1, h2⟩ | h1
      · rw [h1, h2]
        simpa using ih
      · rw [h1, argsOptFold_some]
        exact Or.inr rfl

/-- Once an entry exists, the option-level name fold tracks the plain
name fold. -/
lemma nameChunkFold_some (idx : ℕ) :
    ∀ (tcs : List ToolCallChunk) (v : List Char),
      tcs.foldl (nameChunkStep idx) (some v) =
        some (tcs.foldl (chunkNameStep idx) v) := by
  intro tcs
  induction tcs with
  | nil => intro v; rfl
  | cons tc rest ih =>
    intro v
    simp only [List.foldl_cons, nameChunkStep, chunkNameStep, Option.getD_some]
    by_cases h : tc.index = idx
    · rw [if_pos h, if_pos h]
      exact ih (nameUpdOf tc v)
    · rw [if_neg h, if_neg h]
      exact ih v

/-- From an absent entry, a chunk list either never touches the index
or creates the entry tracking the plain name fold. -/
lemma nameChunkFold_none (idx : ℕ) :
    ∀ tcs : List ToolCallChunk,
      (tcs.foldl (nameChunkStep idx) none = none ∧
        tcs.foldl (chunkNameStep idx) [] = []) ∨
      tcs.foldl (nameChunkStep idx) none =
        some (tcs.foldl (chunkNameStep idx) []) := by
  intro tcs
  induction tcs with
  | nil => exact Or.inl ⟨rfl, rfl⟩
  | cons tc rest ih =>
    by_cases h : tc.index = idx
    · right
      simp only [List.foldl_cons, nameChunkStep, chunkNameStep, if_pos h,
        Option.getD_none]
      exact nameChunkFold_some idx rest (nameUpdOf tc [])
    · simp only [List.foldl_cons, nameChunkStep, chunkNameStep, if_neg h]
      exact ih

/-- Event-stream version of `nameChunkFold_some`. -/
lemma nameOptFold_some (idx : ℕ) :
    ∀ (events : List StreamEvent) (v : List Char),
      nameOptFold idx (some v) events = some (nameFold idx v events) := by
  intro events
  induction events with
  | nil => intro v; rfl
  | cons e rest ih =>
    intro v
    cases e with
    | done => rfl
    | skip =>
      simp only [nameOptFold, nameFold]
      exact ih v
    | delta c tcs =>
      simp only [nameOptFold, nameFold]
      rw [nameChunkFold_some idx tcs v, ih]

/-- Event-stream version of `nameChunkFold_none`: when the entry
exists, its final name is the last non-empty name fragment. -/
lemma nameOptFold_none (idx : ℕ) :
    ∀ events : List StreamEvent,
      nameOptFold idx none events = none ∨
      nameOptFold idx none events = some (lastNameFrag idx events) := by
  intro events
  unfold lastNameFrag
  induction events with
  | nil => exact Or.inl rfl
  | cons e rest ih =>
    cases e with
    | done => exact Or.inl rfl
    | skip =>
      simp only [nameOptFold, nameFold]
      exact ih
    | delta c tcs =>
      simp only [nameOptFold, nameFold]
      rcases nameChunkFold_none idx tcs with ⟨h1, h2⟩ | h1
      · rw [h1, h2]
        exact ih
      · rw [h1, nameOptFold_some]
        exact Or.inr rfl

/-- Keys after applying one chunk: the old keys plus the chunk's
index. -/
lemma mem_keys_applyChunkToList (tc : ToolCallChunk) :
    ∀ (l : List (ℕ × ToolEntry)) (k : ℕ),
      k ∈ (applyChunkToList tc l).map Prod.fst ↔
        k ∈ l.map Prod.fst ∨ k = tc.index := by
  intro l
  induction l with
  | nil => intro k; simp [applyChunkToList]
  | cons p rest ih =>
    rcases p with ⟨i, e⟩
    intro k
    simp only [applyChunkToList]
    by_cases hi : i = tc.index
    · rw [if_pos hi]
      simp only [List.map_cons, List.mem_cons, hi]
      tauto
    · rw [if_neg hi]
      simp only [List.map_cons, List.mem_cons, ih k]
      tauto

/-- Applying a chunk preserves key uniqueness. -/
lemma nodup_keys_applyChunkToList (tc : ToolCallChunk) :
    ∀ l : List (ℕ × ToolEntry),
      (l.map Prod.fst).Nodup → ((applyChunkToList tc l).map Prod.fst).Nodup := by
  intro l
  induction l with
  | nil => intro _; simp [applyChunkToList]
  | cons p rest ih =>
    rcases p with ⟨i, e⟩
    intro h
    simp only [List.map_cons, List.nodup_cons] at h
    simp only [applyChunkToList]
    by_cases hi : i = tc.index
    · rw [if_pos hi]
      simp only [List.map_cons, List.nodup_cons]
      exact h
    · rw [if_neg hi]
      simp only [List.map_cons, List.nodup_cons]
      refine ⟨?_, ih h.2⟩
      intro hmem
      rcases (mem_keys_applyChunkToList tc rest i).mp hmem with hm | hm
      · exact h.1 hm
      · exact hi hm

/-- A chunk-list fold preserves key uniqueness. -/
lemma nodup_keys_applyChunks :
    ∀ (tcs : List ToolCallChunk) (l : List (ℕ × ToolEntry)),
      (l.map Prod.fst).Nodup →
      ((tcs.foldl (fun acc tc => applyChunkToList tc acc) l).map Prod.fst).Nodup := by
  intro tcs
  induction tcs with
  | nil => intro l h; exact h
  | cons tc rest ih =>
    intro l h
    exact ih _ (nodup_keys_applyChunkToList tc l h)

/-- The whole event fold preserves key uniqueness. -/
lemma nodup_keys_processEvents :
    ∀ (events : List StreamEvent) (st : StreamState),
      (st.tool_calls.map Prod.fst).Nodup →
      ((processEvents st events).tool_calls.map Prod.fst).Nodup := by
  intro events
  induction events with
  | nil => intro st h; exact h
  | cons e rest ih =>
    intro st h
    cases e with
    | done => exact h
    | skip => exact ih st h
    | delta c tcs => exact ih (applyDelta st c tcs) (nodup_keys_applyChunks tcs _ h)

/-- With unique keys, membership determines the lookup. -/
lemma lookupIdx_eq_of_mem :
    ∀ l : List (ℕ × ToolEntry),
      (l.map Prod.fst).Nodup → ∀ p ∈ l, lookupIdx p.1 l = some p.2 := by
  intro l
  induction l with
  | nil => intro _ p hp; simp at hp
  | cons q rest ih =>
    rcases q with ⟨i, e⟩
    intro h p hp
    simp only [List.map_cons, List.nodup_cons] at h
    rcases List.mem_cons.mp hp with hp | hp
    · subst hp
      simp [lookupIdx]
    · have hne : i ≠ p.1 := by
        intro hh
        exact h.1 (hh ▸ List.mem_map_of_mem Prod.fst hp)
      simp only [lookupIdx, if_neg hne]
      exact ih h.2 p hp

/-- Inserting into the sorted list is a permutation of consing. -/
lemma insertByIdx_perm (p : ℕ × ToolEntry) :
    ∀ l, List.Perm (insertByIdx p l) (p :: l) := by
  intro l
  induction l with
  | nil => exact List.Perm.refl _
  | cons q qs ih =>
    simp only [insertByIdx]
    by_cases h : p.1 ≤ q.1
    · rw [if_pos h]
    · rw [if_neg h]
      exact (ih.cons q).trans (List.Perm.swap p q qs)

/-- The final ordering step permutes the accumulated entries. -/
lemma sortByIdx_perm : ∀ l : List (ℕ × ToolEntry), List.Perm (sortByIdx l) l := by
  intro l
  induction l with
  | nil => exact List.Perm.refl _
  | cons p rest ih =>
    exact (insertByIdx_perm p (sortByIdx rest)).trans (ih.cons p)

/-- Insertion keeps the list sorted by key. -/
lemma pairwise_le_insertByIdx (p : ℕ × ToolEntry) :
    ∀ l, List.Pairwise (fun a b : ℕ × ToolEntry => a.1 ≤ b.1) l →
      List.Pairwise (fun a b : ℕ × ToolEntry => a.1 ≤ b.1) (insertByIdx p l) := by
  intro l
  induction l with
  | nil => intro _; simp [insertByIdx]
  | cons q qs ih =>
    intro h
    rcases List.pairwise_cons.mp h with ⟨hq, hqs⟩
    simp only [insertByIdx]
    by_cases hle : p.1 ≤ q.1
    · rw [if_pos hle]
      refine List.pairwise_cons.mpr ⟨?_, h⟩
      intro b hb
      rcases List.mem_cons.mp hb with hb | hb
      · rw [hb]; exact hle
      · exact le_trans hle (hq b hb)
    · rw [if_neg hle]
      refine List.pairwise_cons.mpr ⟨?_, ih hqs⟩
      intro b hb
      rcases List.mem_cons.mp ((insertByIdx_perm p qs).mem_iff.mp hb) with hb | hb
      · rw [hb]; omega
      · exact hq b hb

/-- The ordering step sorts by key. -/
lemma sortByIdx_pairwise_le :
    ∀ l : List (ℕ × ToolEntry),
      List.Pairwise (fun a b : ℕ × ToolEntry => a.1 ≤ b.1) (sortByIdx l) := by
  intro l
  induction l with
  | nil => exact List.Pairwise.nil
  | cons p rest ih => exact pairwise_le_insertByIdx p (sortByIdx rest) ih

/-- Sorted-by-≤ with unique keys is strictly ascending. -/
lemma pairwise_lt_of_nodup :
    ∀ l : List (ℕ × ToolEntry),
      List.Pairwise (fun a b : ℕ × ToolEntry => a.1 ≤ b.1) l →
      (l.map Prod.fst).Nodup →
      List.Pairwise (fun a b : ℕ × ToolEntry => a.1 < b.1) l := by
  intro l
  induction l with
  | nil => intro _ _; exact List.Pairwise.nil
  | cons a rest ih =>
    intro hle hnd
    rcases List.pairwise_cons.mp hle with ⟨ha, hrest⟩
    simp only [List.map_cons, List.nodup_cons] at hnd
    refine List.pairwise_cons.mpr ⟨?_, ih hrest hnd.2⟩
    intro b hb
    have h1 := ha b hb
    have h2 : a.1 ≠ b.1 := by
      intro hh
      exact hnd.1 (hh ▸ List.mem_map_of_mem Prod.fst hb)
    omega

/-- Content accumulates in stream order across the event fold. -/
lemma processEvents_content :
    ∀ (events : List StreamEvent) (st : StreamState),
      (processEvents st events).content = st.content ++ contentConcat events := by
  intro events
  induction events with
  | nil => intro st; simp [processEvents, contentConcat]
  | cons e rest ih =>
    intro st
    cases e with
    | done => simp [processEvents, contentConcat]
    | skip =>
      show (processEvents st rest).content = _
      rw [ih st]
      rfl
    | delta c tcs =>
      show (processEvents (applyDelta st c tcs) rest).content = _
      rw [ih (applyDelta st c tcs)]
      show (st.content ++ c.getD []) ++ contentConcat rest = _
      rw [List.append_assoc]
      rfl

/-- C9 amended: `parse_streamed_response` reassembles the streamed
deltas into a non-streamed-shaped assistant message — tool calls listed
in strictly ascending index order, each tool call's arguments equal to
the stream-order concatenation of the argument fragments carried for
its index, each name equal to the *last* non-empty name fragment for
its index (later fragments overwrite earlier ones), and content `None`
exactly when tool calls are present and no content was accumulated. -/
theorem c9_streamed_reassembly :
    ∀ events : List StreamEvent,
      List.Pairwise (fun a b : ℕ × ToolEntry => a.1 < b.1)
        (parse_streamed_response events).tool_calls ∧
      (∀ p ∈ (parse_streamed_response events).tool_calls,
          p.2.args = argConcat p.1 events ∧ p.2.name = lastNameFrag p.1 events) ∧
      ((parse_streamed_response events).content = none ↔
        ((parse_streamed_response events).tool_calls ≠ [] ∧
          contentConcat events = [])) := by
  intro events
  have hnodup : ((processEvents ⟨[], []⟩ events).tool_calls.map Prod.fst).Nodup :=
    nodup_keys_processEvents events ⟨[], []⟩ (by simp)
  have hcontent : (processEvents ⟨[], []⟩ events).content = contentConcat events := by
    have := processEvents_content events ⟨[], []⟩
    simpa using this
  by_cases hemp : (processEvents ⟨[], []⟩ events).tool_calls = []
  · simp only [parse_streamed_response, hemp, ne_eq, not_true_eq_false, if_false,
      not_not]
    refine ⟨List.Pairwise.nil, by simp, by simp⟩
  · simp only [parse_streamed_response, ne_eq, hemp, not_false_eq_true, if_true]
    have hsne : sortByIdx (processEvents ⟨[], []⟩ events).tool_calls ≠ [] := by
      intro h0
      apply hemp
      have hperm := sortByIdx_perm (processEvents ⟨[], []⟩ events).tool_calls
      rw [h0] at hperm
      exact (hperm.symm).eq_nil
    refine ⟨?_, ?_, ?_⟩
    · exact pairwise_lt_of_nodup _ (sortByIdx_pairwise_le _)
        (((sortByIdx_perm _).map Prod.fst).nodup_iff.mpr hnodup)
    · intro p hp
      have hpmem : p ∈ (processEvents ⟨[], []⟩ events).tool_calls :=
        (sortByIdx_perm _).mem_iff.mp hp
      have hlk : lookupIdx p.1 (processEvents ⟨[], []⟩ events).tool_calls = some p.2 :=
        lookupIdx_eq_of_mem _ hnodup p hpmem
      constructor
      · have h1 := processEvents_lookup_args p.1 events ⟨[], []⟩
        have h0 : (lookupIdx p.1 (⟨[], []⟩ : StreamState).tool_calls).map
            ToolEntry.args = none := rfl
        rw [hlk, h0] at h1
        rcases argsOptFold_none p.1 events with h2 | h2
        · rw [h2] at h1
          simp at h1
        · rw [h2] at h1
          simpa using h1
      · have h1 := processEvents_lookup_name p.1 events ⟨[], []⟩
        have h0 : (lookupIdx p.1 (⟨[], []⟩ : StreamState).tool_calls).map
            ToolEntry.name = none := rfl
        rw [hlk, h0] at h1
        rcases nameOptFold_none p.1 events with h2 | h2
        · rw [h2] at h1
          simp at h1
        · rw [h2] at h1
          simpa using h1
    · rw [hcontent] at *
      by_cases hcc : contentConcat events = []
      · rw [hcontent, if_pos hcc]
        simp [hsne, hcc]
      · rw [hcontent, if_neg hcc]
        simp [hcc]

/-- C9 counterexample: a stream carrying two non-empty name fragments
("alpha", then "beta") for the same tool-call index ends with the name
"beta" — each non-empty fragment overwrites the previous one — while
the first non-empty fragment is "alpha"; so the name is *not* taken
from the first non-empty name fragment as claimed. -/
theorem c9_counterexample_name_last_fragment_wins :
    (parse_streamed_response
      [StreamEvent.delta none [⟨0, none, none, some "alpha".data, none⟩],
       StreamEvent.delta none [⟨0, none, none, some "beta".data, none⟩]]).tool_calls =
      [(0, ⟨none, "function".data, "beta".data, []⟩)] ∧
    firstNameFrag 0
      [StreamEvent.delta none [⟨0, none, none, some "alpha".data, none⟩],
       StreamEvent.delta none [⟨0, none, none, some "beta".data, none⟩]] =
      "alpha".data ∧
    "beta".data ≠ "alpha".data := by
  decide

/-- C9 witness: on a two-delta stream interleaving two tool calls, the
reassembled entry at index 0 carries exactly its concatenated argument
fragments and its last non-empty name fragment. -/
theorem c9_streamed_reassembly_witness :
    ((0, (⟨none, "function".data, "f".data, "xy".data⟩ : ToolEntry)) :
        ℕ × ToolEntry).2.args =
      argConcat 0
        [StreamEvent.delta (some "hi".data)
          [⟨2, some "i2".data, none, some "g".data, some "ab".data⟩],
         StreamEvent.delta none
          [⟨0, none, none, some "f".data, some "xy".data⟩,
           ⟨2, none, none, none, some "cd".data⟩]] ∧
    ((0, (⟨none, "function".data, "f".data, "xy".data⟩ : ToolEntry)) :
        ℕ × ToolEntry).2.name =
      lastNameFrag 0
        [StreamEvent.delta (some "hi".data)
          [⟨2, some "i2".data, none, some "g".data, some "ab".data⟩],
         StreamEvent.delta none
          [⟨0, none, none, some "f".data, some "xy".data⟩,
           ⟨2, none, none, none, some "cd".data⟩]] :=
  (c9_streamed_reassembly
    [StreamEvent.delta (some "hi".data)
      [⟨2, some "i2".data, none, some "g".data, some "ab".data⟩],
     StreamEvent.delta none
      [⟨0, none, none, some "f".data, some "xy".data⟩,
       ⟨2, none, none, none, some "cd".data⟩]]).2.1
    (0, ⟨none, "function".data, "f".data, "xy".data⟩) (by decide)

end MicroRemed
